import Mathlib

/-!
Verification development for the `unmht-aws` repository (Go).

This file shallowly embeds the core of `analytics.go` — the grid-structure
detector (`prime`, `findRows`, `findCols`), the skeleton index (`Rows.Find`,
`Cols.Find`, `Shift`, `Col.Split`), the image cleaner (`clean`), the OCR
cell assigner (`scan`), the date/time parsers (`parseDate`, `parseTime`,
which wrap Go's `time.Parse` on the three fixed layouts used by the code),
and the analytics engine (`average`, `domagic`, `fixEntry`) — and proves
the spec's claims about them.

Modelling conventions:
* Pixel coordinates are `Int` (Go `int`).  Images decoded from PNG have
  bounds `(0,0)-(w,h)`; `Image.at` returns the zero colour outside bounds,
  exactly as Go's `image.NRGBA.At` does.
* Go's in-place mutation of `Rows`/`Cols` (`Shift`, `cols[0].Right /= 2`)
  is modelled by pure functions returning the updated lists.
* Go integer division truncates toward zero; it is modelled by `Int.tdiv`.
  Every division in the embedded code happens on non-negative operands,
  where `Int.tdiv` agrees with Go.
* Go `for` loops become fuel-based recursion; the fuel is the exact number
  of remaining loop iterations.
* Strings are ASCII in every input of interest, so Go's byte-based `len`
  and slicing agree with `String.length` / `take` / `drop` on `Char`s.
-/

/-! ## Colours and images -/

/-- Go `color.NRGBA` value (the concrete colour type of a decoded PNG). -/
structure NRGBA where
  r : Nat
  g : Nat
  b : Nat
  a : Nat
deriving DecidableEq, Repr

/-- Go `var white = color.NRGBAModel.Convert(color.White)` -/
def white : NRGBA := ⟨255, 255, 255, 255⟩

/-- Go `var black = color.NRGBAModel.Convert(color.Black)` -/
def black : NRGBA := ⟨0, 0, 0, 255⟩

/-- An `*image.NRGBA` with bounds `(0,0)-(w,h)` (as produced by
`png.Decode`).  `pix` is the raw pixel store. -/
structure Image where
  w : Int
  h : Int
  pix : Int → Int → NRGBA

/-- Go `img.At(x, y)`: returns the zero colour outside the bounds. -/
def Image.at (img : Image) (x y : Int) : NRGBA :=
  if 0 ≤ x ∧ x < img.w ∧ 0 ≤ y ∧ y < img.h then img.pix x y else ⟨0, 0, 0, 0⟩

/-! ## Skeleton data model -/

/-- Go `type Row struct { Num, Top, Bottom int }` -/
structure Row where
  Num : Nat
  Top : Int
  Bottom : Int
deriving DecidableEq, Repr

/-- Go `type Col struct { Num, Left, Right int }` -/
structure Col where
  Num : Nat
  Left : Int
  Right : Int
deriving DecidableEq, Repr

/-- Go `type Rows []*Row` -/
abbrev Rows := List Row

/-- Go `type Cols []*Col` -/
abbrev Cols := List Col

/-- Go `func (rs Rows) Find(y int) (int, error)`: first row whose inclusive
span `[Top, Bottom]` contains `y`; `ErrNotFound` otherwise. -/
def Rows.Find : Rows → Int → Except String Nat
  | [], _ => .error "not found"
  | r :: rs, y =>
    if r.Top ≤ y ∧ y ≤ r.Bottom then .ok r.Num else Rows.Find rs y

/-- Go `func (cs Cols) Find(x int) (int, error)` -/
def Cols.Find : Cols → Int → Except String Nat
  | [], _ => .error "not found"
  | c :: cs, x =>
    if c.Left ≤ x ∧ x ≤ c.Right then .ok c.Num else Cols.Find cs x

/-- Go `func (rs Rows) Shift(offset int)` (functional rendering of the
in-place mutation). -/
def Rows.Shift (rs : Rows) (offset : Int) : Rows :=
  rs.map fun r => { r with Top := r.Top + offset, Bottom := r.Bottom + offset }

/-- Go `func (cs Cols) Shift(offset int)` -/
def Cols.Shift (cs : Cols) (offset : Int) : Cols :=
  cs.map fun c => { c with Left := c.Left + offset, Right := c.Right + offset }

/-- Go `func (c *Col) Split() Cols`: split at `Right - size/2`; the second
half keeps the right bound and gets number `Num + 1`. -/
def Col.Split (c : Col) : Cols :=
  let size := c.Right - c.Left
  let c1 : Col := { Num := c.Num, Left := c.Left, Right := c.Right - Int.tdiv size 2 }
  let c2 : Col := { Num := c.Num + 1, Left := c1.Right, Right := c.Right }
  [c1, c2]

/-! ## Grid detection -/

/-- Loop body of `findRow0`: scan pixel column `x = 0` downward for the
first pixel that is not `white`.  Fuel counts the remaining `y` values. -/
def findRow0Aux (img : Image) : Nat → Int → Except String Int
  | 0, _ => .error "first row not found"
  | fuel + 1, y =>
    if img.at 0 y ≠ white then .ok y else findRow0Aux img fuel (y + 1)

/-- Go `func findRow0(img image.Image) (int, error)` -/
def findRow0 (img : Image) : Except String Int :=
  findRow0Aux img img.h.toNat 0

/-- Loop body of `findCol0`: scan row `row0` rightward from `x = 3` for
the first `black` pixel. -/
def findCol0Aux (img : Image) (row0 : Int) : Nat → Int → Except String Int
  | 0, _ => .error "first col not found"
  | fuel + 1, x =>
    if img.at x row0 = black then .ok x else findCol0Aux img row0 fuel (x + 1)

/-- Go `func findCol0(img image.Image, row0 int) (int, error)` -/
def findCol0 (img : Image) (row0 : Int) : Except String Int :=
  findCol0Aux img row0 (img.w - 3).toNat 3

/-- Loop of `findRows`: close the current row at every `black` sample
pixel; stop once a gap longer than `maxHeight = 50` passes without one. -/
def findRowsAux (img : Image) (xs : Int) : Nat → Int → Row → Rows → Rows
  | 0, _, _, acc => acc
  | fuel + 1, y, curr, acc =>
    if img.at xs y ≠ black then
      if y - curr.Top > 50 then acc
      else findRowsAux img xs fuel (y + 1) curr acc
    else
      let acc2 := acc ++ [{ curr with Bottom := y }]
      findRowsAux img xs fuel (y + 1) { Num := acc2.length, Top := y, Bottom := 0 } acc2

/-- Go `func findRows(img image.Image, row0 int) Rows`; the sample column is
`Bounds().Max.X - 5`. -/
def findRows (img : Image) (row0 : Int) : Rows :=
  findRowsAux img (img.w - 5) (img.h - (row0 + 1)).toNat (row0 + 1)
    { Num := 0, Top := row0, Bottom := 0 } []

/-- Go `func isCol(img image.Image, x int, y int) bool`: a 5-pixel plus-shaped
all-black marker centred at `(x, y)`. -/
def isCol (img : Image) (x y : Int) : Bool :=
  (List.range 5).all fun i =>
    img.at (x + i) y = black ∧ img.at (x - i) y = black ∧
    img.at x (y + i) = black ∧ img.at x (y - i) = black

/-- Loop of `findCols`: every marker closes the current column; stop right
after the third column is produced. -/
def findColsAux (img : Image) (row0 : Int) : Nat → Int → Col → Cols → Cols
  | 0, _, _, acc => acc
  | fuel + 1, x, curr, acc =>
    if isCol img x row0 then
      let acc2 := acc ++ [{ curr with Right := x }]
      if acc2.length = 3 then acc2
      else findColsAux img row0 fuel (x + 1) { Num := acc2.length, Left := x, Right := 0 } acc2
    else findColsAux img row0 fuel (x + 1) curr acc

/-- Go `func findCols(img image.Image, row0 int, col0 int) Cols` -/
def findCols (img : Image) (row0 col0 : Int) : Cols :=
  findColsAux img row0 (img.w - (col0 + 1)).toNat (col0 + 1)
    { Num := 0, Left := col0, Right := 0 } []

/-! ## Image cleaning -/

/-- Go `func clean(img *image.NRGBA, rows Rows, cols Cols)`: overwrite each
row's `Top` scanline (for `0 ≤ x < w`) and each column's `Right` pixel
column (for `0 ≤ y < h`) with `white`.  Functional rendering of the two
`img.Set` loops; `Set` outside the bounds is a no-op, which the `Image.at`
bounds mask already accounts for. -/
def clean (img : Image) (rows : Rows) (cols : Cols) : Image :=
  { img with
    pix := fun x y =>
      if rows.any (fun r => r.Top = y) then white
      else if cols.any (fun c => c.Right = x) then white
      else img.pix x y }

/-! ## prime: detection, reconciliation, skeleton assembly -/

/-- Go `type Skeleton struct { W, H int; Rows Rows; Cols Cols }` -/
structure Skeleton where
  W : Int
  H : Int
  rows : Rows
  cols : Cols
deriving DecidableEq, Repr

/-- Go `cols[0].Right /= 2` (the first raw column's right bound is halved). -/
def halveFirst : Cols → Cols
  | [] => []
  | c :: cs => { c with Right := Int.tdiv c.Right 2 } :: cs

/-- Go `cols = append(cols[:len(cols)-1], cols[len(cols)-1].Split()...)` -/
def splitLast (cs : Cols) : Cols :=
  cs.dropLast ++ (match cs.getLast? with
    | some c => c.Split
    | none => [])

/-- The skeleton-producing part of `func prime(img *image.NRGBA) (*Primed, error)`.
`W`/`H` come from the crop rectangle spanned by the first/last column and
row (`draw`), computed before the rebase.  The PNG re-encoding (`Primed.Data`)
is not modelled.  Go indexes `rows[0]` / `cols[0]` unconditionally and
panics on an empty detection result; the panic is modelled as `none`. -/
def primeSkeleton (img : Image) : Option Skeleton :=
  match findRow0 img with
  | .error _ => none
  | .ok row0 =>
    match findCol0 img row0 with
    | .error _ => none
    | .ok col0 =>
      let rows := findRows img row0
      let cols := findCols img row0 col0
      match rows.head?, rows.getLast?, cols.head?, cols.getLast? with
      | some r0, some rl, some c0, some cl =>
        let W := cl.Right - c0.Left
        let H := rl.Bottom - r0.Top
        let rows2 := rows.Shift (-r0.Top)
        let cols2 := cols.Shift (-c0.Left)
        let cols3 := splitLast (halveFirst cols2)
        some { W := W, H := H, rows := rows2, cols := cols3 }
      | _, _, _, _ => none

/-! ## Go times

`time.Time` values appearing in this program are always minute-aligned
(they come from parsing layouts without seconds), so a civil
year/month/day/hour/minute record is a faithful model. -/

/-- The fields of a parsed `time.Time` (UTC, second and finer always 0
in this program). -/
structure GoTime where
  year : Nat
  month : Nat
  day : Nat
  hour : Nat
  minute : Nat
deriving DecidableEq, Repr

/-- The zero `time.Time{}`: 1 January, year 1, 00:00. -/
def GoTime.zero : GoTime := ⟨1, 1, 1, 0, 0⟩

/-- Go `isLeap`. -/
def isLeap (y : Nat) : Bool :=
  y % 4 = 0 ∧ (y % 100 ≠ 0 ∨ y % 400 = 0)

/-- Go `daysIn(m, year)`. -/
def daysIn (m y : Nat) : Nat :=
  if m = 2 then (if isLeap y then 29 else 28)
  else if m = 4 ∨ m = 6 ∨ m = 9 ∨ m = 11 then 30
  else 31

/-! Nanosecond durations (`time.Duration` is an `int64` nanosecond count;
every duration in this program is non-negative, so `Nat` suffices). -/

def nsPerMinute : Nat := 60000000000

def nsPerHour : Nat := 3600000000000

def nsPerDay : Nat := 86400000000000

/-- Go `Duration.Round(m)` for non-negative `d`: round to the nearest
multiple of `m`, halves away from zero; `m = 0` returns `d` unchanged. -/
def durRound (d m : Nat) : Nat :=
  if m = 0 then d
  else
    let r := d % m
    if r + r < m then d - r else d + (m - r)

/-- Advance a civil date by one day (Go's calendar normalisation as it
applies to the valid dates this program constructs). -/
def GoTime.nextDay (t : GoTime) : GoTime :=
  if t.day < daysIn t.month t.year then { t with day := t.day + 1 }
  else if t.month < 12 then { t with day := 1, month := t.month + 1 }
  else { t with day := 1, month := 1, year := t.year + 1 }

/-- Advance a civil date by `n` days. -/
def GoTime.addDays (t : GoTime) : Nat → GoTime
  | 0 => t
  | n + 1 => (t.nextDay).addDays n

/-- Go `t.Add(d)` for a non-negative duration `d` in nanoseconds.  The
times this program adds to are minute-aligned, and only minute resolution
is observable through `Format`, so sub-minute remainders are dropped. -/
def GoTime.Add (t : GoTime) (d : Nat) : GoTime :=
  let total := (t.hour * 60 + t.minute) * nsPerMinute + d
  let days := total / nsPerDay
  let hm := (total % nsPerDay) / nsPerMinute
  GoTime.addDays { t with hour := hm / 60, minute := hm % 60 } days

/-! ## Go `time.Parse` on the program's fixed layouts

`dateFormat = "02012006"`, `timeFormat = dateFormat + "15.04"`,
`timeFormat2 = dateFormat + "1504"`.  The model reproduces Go's `getnum`
(fixed two-digit fields for `02`/`01`/`04`, one-or-two digits for `15`),
the four-digit year, the literal dot, the trailing-garbage check, and the
range checks on month, day (against `daysIn`), hour and minute. -/

def digitVal (c : Char) : Nat := c.toNat - 48

/-- Go `getnum(s, fixed)`: one or two digits; `fixed` requires two. -/
def getnum (fixed : Bool) : List Char → Option (Nat × List Char)
  | [] => none
  | [c] => if c.isDigit ∧ fixed = false then some (digitVal c, []) else none
  | c1 :: c2 :: rest =>
    if c1.isDigit then
      if c2.isDigit then some (digitVal c1 * 10 + digitVal c2, rest)
      else if fixed then none
      else some (digitVal c1, c2 :: rest)
    else none

/-- The four-digit year field (`2006`). -/
def getnum4 : List Char → Option (Nat × List Char)
  | c1 :: c2 :: c3 :: c4 :: rest =>
    if c1.isDigit ∧ c2.isDigit ∧ c3.isDigit ∧ c4.isDigit then
      some (((digitVal c1 * 10 + digitVal c2) * 10 + digitVal c3) * 10 + digitVal c4, rest)
    else none
  | _ => none

/-- Common day-month-year prefix of all three layouts (`02` `01` `2006`). -/
def parseDMY (v : List Char) : Option (Nat × Nat × Nat × List Char) :=
  match getnum true v with
  | none => none
  | some (day, v) =>
    match getnum true v with
    | none => none
    | some (month, v) =>
      match getnum4 v with
      | none => none
      | some (year, v) => some (day, month, year, v)

/-- The post-parse range checks of `time.Parse`. -/
def dmyValid (day month year : Nat) : Bool :=
  1 ≤ month ∧ month ≤ 12 ∧ 1 ≤ day ∧ day ≤ daysIn month year

/-- Go `time.Parse("02012006", v)`. -/
def goParseDate (v : List Char) : Except String GoTime :=
  match parseDMY v with
  | none => .error "cannot parse"
  | some (day, month, year, rest) =>
    if rest = [] ∧ dmyValid day month year then
      .ok ⟨year, month, day, 0, 0⟩
    else .error "cannot parse"

/-- Hour-minute tail of the two time layouts: the hour is one or two
digits (`15`), the minute exactly two (`04`), with an optional literal
dot between them. -/
def parseHM (dot : Bool) (v : List Char) : Option (Nat × Nat × List Char) :=
  match getnum false v with
  | none => none
  | some (hour, v) =>
    let v2 := if dot then (match v with
      | '.' :: rest => some rest
      | _ => none) else some v
    match v2 with
    | none => none
    | some v =>
      match getnum true v with
      | none => none
      | some (minute, v) => some (hour, minute, v)

/-- Go `time.Parse` on one of the two time layouts. -/
def goParseTime (dot : Bool) (v : List Char) : Except String GoTime :=
  match parseDMY v with
  | none => .error "cannot parse"
  | some (day, month, year, rest) =>
    match parseHM dot rest with
    | none => .error "cannot parse"
    | some (hour, minute, rest) =>
      if rest = [] ∧ dmyValid day month year ∧ hour ≤ 23 ∧ minute ≤ 59 then
        .ok ⟨year, month, day, hour, minute⟩
      else .error "cannot parse"

/-! ## parseDate / parseTime -/

/-- Go `strings.Replace(s, "1/", "1", 1)`: replace the first occurrence of
`"1/"` with `"1"` (net effect: delete the `/` of the first `"1/"`). -/
def replaceFirst1Slash : List Char → List Char
  | '1' :: '/' :: rest => '1' :: rest
  | c :: rest => c :: replaceFirst1Slash rest
  | [] => []

/-- The length-9 normalisation: `s[:2] + s[2:4] + s[5:]`. -/
def clean9 (s : String) : String :=
  s.take 2 ++ (s.drop 2).take 2 ++ s.drop 5

/-- The length-10 normalisation: `s[:2] + s[3:5] + s[6:]`. -/
def clean10 (s : String) : String :=
  s.take 2 ++ (s.drop 3).take 2 ++ s.drop 6

/-- Go `func parseDate(s string) (time.Time, error)`.  The one recursive call
(length 11 → length 10) is unfolded; the `fallthrough` into `default`
yields the unexpected-format error. -/
def parseDate (s : String) : Except String GoTime :=
  if s.length = 9 then
    match goParseDate (clean9 s).toList with
    | .ok t => .ok t
    | .error _ => .error "failed to parse date"
  else if s.length = 10 then
    match goParseDate (clean10 s).toList with
    | .ok t => .ok t
    | .error _ => .error "failed to parse date"
  else if s.length = 11 then
    let undup : String := ⟨replaceFirst1Slash s.toList⟩
    if undup.length = 10 then
      match goParseDate (clean10 undup).toList with
      | .ok t => .ok t
      | .error _ => .error "failed to parse date"
    else .error ("unexpected date format: " ++ s)
  else .error ("unexpected date format: " ++ s)

/-- Go `func parseTime(sdate string, stime string) (*time.Time, error)`: try
the dotted layout, fall back to the concatenated one. -/
def parseTime (sdate stime : String) : Except String GoTime :=
  let s := sdate ++ stime
  match goParseTime true s.toList with
  | .ok t => .ok t
  | .error _ => goParseTime false s.toList

/-! ## Formatting -/

/-- Two-digit zero-padded field. -/
def pad2 (n : Nat) : String :=
  if n < 10 then "0" ++ toString n else toString n

/-- Four-digit zero-padded year field. -/
def pad4 (n : Nat) : String :=
  if n < 10 then "000" ++ toString n
  else if n < 100 then "00" ++ toString n
  else if n < 1000 then "0" ++ toString n
  else toString n

/-- Go `t.Format(dateFormat)` with `dateFormat = "02012006"`. -/
def GoTime.formatDate (t : GoTime) : String :=
  pad2 t.day ++ pad2 t.month ++ pad4 t.year

/-- Go `t.Format(prettyDate)` with `prettyDate = "02/01"`. -/
def GoTime.formatPrettyDate (t : GoTime) : String :=
  pad2 t.day ++ "/" ++ pad2 t.month

/-- Go `t.Format(prettyTime)` with `prettyTime = "15:04"`. -/
def GoTime.formatPrettyTime (t : GoTime) : String :=
  pad2 t.hour ++ ":" ++ pad2 t.minute

/-! ## Entries and analytics -/

/-- Go `type Entry struct { date time.Time; activity string; in, out *time.Time }`.
The Go zero value has the zero date, empty activity and nil times. -/
structure Entry where
  date : GoTime := GoTime.zero
  activity : String := ""
  inTime : Option GoTime := none
  outTime : Option GoTime := none
deriving DecidableEq, Repr

instance : Inhabited Entry := ⟨{}⟩

/-- Go `func average(entries []Entry, extractor func(Entry) *time.Time, def time.Duration) time.Duration`:
sum `Hour()*time.Hour + Minute()*time.Minute` over the set entries, divide
by the count (integer nanosecond division), round to the nearest 15
minutes; return the default when no entry has the field set. -/
def average (entries : List Entry) (extractor : Entry → Option GoTime)
    (dflt : Nat) : Nat :=
  let tc := entries.foldl
    (fun (acc : Nat × Nat) e =>
      match extractor e with
      | none => acc
      | some v => (acc.1 + (v.hour * nsPerHour + v.minute * nsPerMinute), acc.2 + 1))
    (0, 0)
  if tc.2 = 0 then dflt
  else durRound (tc.1 / tc.2) (15 * nsPerMinute)

/-- Go `func averageIn(entries []Entry) time.Duration` (default 09:00). -/
def averageIn (entries : List Entry) : Nat :=
  average entries (fun e => e.inTime) (9 * nsPerHour)

/-- Go `func averageOut(entries []Entry) time.Duration` (default 17:00). -/
def averageOut (entries : List Entry) : Nat :=
  average entries (fun e => e.outTime) (17 * nsPerHour)

/-- Go `type Magic struct { Problems []string; Fixes []string }` -/
structure Magic where
  Problems : List String
  Fixes : List String
deriving DecidableEq, Repr

/-- Go `func fixEntry(e Entry, avgIn time.Duration, avgOut time.Duration) (string, error)` -/
def fixEntry (e : Entry) (avgIn avgOut : Nat) : Except String String :=
  match e.inTime, e.outTime with
  | none, none => .error "both times are empty"
  | some _, some _ => .error "both times are non-empty"
  | some t, none =>
    .ok (e.date.formatPrettyDate ++ ": arrived at " ++ t.formatPrettyTime ++
      ", left at " ++ (e.date.Add avgOut).formatPrettyTime)
  | none, some t =>
    .ok (e.date.formatPrettyDate ++ ": arrived at " ++
      (e.date.Add avgIn).formatPrettyTime ++ ", left at " ++ t.formatPrettyTime)

/-- Go `func domagic(entries []Entry) *Magic`.  A failing `fixEntry` is
logged and skipped (the problem is still reported); everything else
appends to the two slices in entry order. -/
def domagic (entries : List Entry) : Magic :=
  let avgIn := averageIn entries
  let avgOut := averageOut entries
  let pf := entries.foldl
    (fun (acc : List String × List String) e =>
      if e.activity = "" then acc
      else
        let datefmt := e.date.formatPrettyDate
        if e.activity = "UnclosedDay" then
          let p := datefmt ++ ": Unclosed day"
          match fixEntry e avgIn avgOut with
          | .error _ => (acc.1 ++ [p], acc.2)
          | .ok fix => (acc.1 ++ [p], acc.2 ++ [fix])
        else if e.activity = "Vacation/Una" then
          (acc.1 ++ [datefmt ++ ": Missing report"], acc.2)
        else
          (acc.1 ++ [datefmt ++ ": " ++ e.activity], acc.2))
    ([], [])
  ⟨pf.1, pf.2⟩

/-! ## The cell assigner (`scan`) -/

/-- A Rekognition `BoundingBox`: geometry as fractions of the image
dimensions.  Go stores `float64`; the fractions appearing here are exact
binary rationals, modelled as `ℚ`. -/
structure BoundingBox where
  left : ℚ
  top : ℚ
  width : ℚ
  height : ℚ
deriving DecidableEq, Repr

/-- A Rekognition `TextDetection` (`Type`, `DetectedText`, bounding box). -/
structure TextDetection where
  dtype : Option String
  text : String
  box : BoundingBox
deriving DecidableEq, Repr

/-- Go `int(f)` for the non-negative values arising here (truncation
toward zero). -/
def ratToInt (q : ℚ) : Int :=
  if 0 ≤ q then ⌊q⌋ else ⌈q⌉

/-- Go `func center(box *rekognition.BoundingBox, sk Skeleton) image.Point` -/
def center (box : BoundingBox) (sk : Skeleton) : Int × Int :=
  let w : ℚ := sk.W
  let h : ℚ := sk.H
  (ratToInt (box.left * w + box.width * w / 2),
   ratToInt (box.top * h + box.height * h / 2))

/-- Insertion into a list sorted by ascending bounding-box `Left`
(`sort.Slice` with `less = Left <`; Go's sort is unstable, so any sorted
rearrangement is a faithful model — on detections with distinct `Left`
this is exact). -/
def insertByLeft (d : TextDetection) : List TextDetection → List TextDetection
  | [] => [d]
  | e :: es =>
    if d.box.left < e.box.left then d :: e :: es else e :: insertByLeft d es

/-- The `sort.Slice` call at the top of `scan`. -/
def sortByLeft (dts : List TextDetection) : List TextDetection :=
  dts.foldr insertByLeft []

/-- The body of `scan`'s loop for one detection: skip non-`WORD`
detections and detections whose centre resolves to no column or row;
dispatch on the resolved column number (`DateHeader = 0`,
`ActivityHeader = 1`, `InHeader = 2`, `OutHeader = 3`; any other number
falls through the `switch` and does nothing).  A date or time parse
failure aborts the whole scan.  Go indexes `entries[r]` (the detector's
row numbers are positional indices); the model reads with `getD` and
writes with `set`. -/
def scanStep (sk : Skeleton) (entries : List Entry) (d : TextDetection) :
    Except String (List Entry) :=
  if d.dtype ≠ some "WORD" then .ok entries
  else
    let c := center d.box sk
    match sk.cols.Find c.1 with
    | .error _ => .ok entries
    | .ok col =>
      match sk.rows.Find c.2 with
      | .error _ => .ok entries
      | .ok r =>
        let e := entries.getD r default
        match col with
        | 0 =>
          match parseDate d.text with
          | .error err => .error err
          | .ok date => .ok (entries.set r { e with date := date })
        | 1 => .ok (entries.set r { e with activity := e.activity ++ d.text })
        | 2 =>
          match parseTime e.date.formatDate d.text with
          | .error err => .error err
          | .ok t => .ok (entries.set r { e with inTime := some t })
        | 3 =>
          match parseTime e.date.formatDate d.text with
          | .error err => .error err
          | .ok t => .ok (entries.set r { e with outTime := some t })
        | _ => .ok entries

/-- Go `func scan(out *rekognition.DetectTextOutput, sk Skeleton) ([]Entry, error)`:
start from `make([]Entry, len(sk.Rows))` (zero entries) and process the
detections in ascending bounding-box `Left` order. -/
def scan (dts : List TextDetection) (sk : Skeleton) : Except String (List Entry) :=
  (sortByLeft dts).foldlM (scanStep sk) (List.replicate sk.rows.length {})

/-! ## Spec-side definitions

These render the specification's wording (not the code), for the
refinement-style claims that compare the two. -/

/-- The spec's literal reading for length-11 dates: *remove* the first
occurrence of the 2-character substring `"1/"` (deleting both
characters). -/
def removeFirst1Slash : List Char → List Char
  | '1' :: '/' :: rest => rest
  | c :: rest => c :: removeFirst1Slash rest
  | [] => []

/-- Spec §4.6: the problem string an entry contributes (none for an empty
activity; `"Unclosed day"` / `"Missing report"` for the two special
activities; the activity verbatim otherwise). -/
def problemOf (e : Entry) : Option String :=
  if e.activity = "" then none
  else if e.activity = "UnclosedDay" then
    some (e.date.formatPrettyDate ++ ": Unclosed day")
  else if e.activity = "Vacation/Una" then
    some (e.date.formatPrettyDate ++ ": Missing report")
  else some (e.date.formatPrettyDate ++ ": " ++ e.activity)

/-- Spec §4.6/§4.6.1: the fix an entry contributes — only `"UnclosedDay"`
entries get one, and a failing fix generation is skipped, not fatal. -/
def fixOf (avgIn avgOut : Nat) (e : Entry) : Option String :=
  if e.activity = "UnclosedDay" then (fixEntry e avgIn avgOut).toOption
  else none

/-- Spec §4.6: average = (sum of durations-since-midnight of the set
entries) / count, rounded to the nearest 15-minute boundary; the supplied
default when no entry has the field set. -/
def specAverage (entries : List Entry) (extractor : Entry → Option GoTime)
    (dflt : Nat) : Nat :=
  let ds := entries.filterMap fun e =>
    (extractor e).map fun v => v.hour * nsPerHour + v.minute * nsPerMinute
  if ds.length = 0 then dflt
  else durRound (ds.sum / ds.length) (15 * nsPerMinute)

/-! ## Concrete test images and detections

`imgA` draws a full table: top border on scanline `y = 6` (reaching
`x = 0`, so `findRow0` anchors there), horizontal rules at `y = 12, 18,
24`, and plus-shaped divider markers at `x = 13, 23, 33` (vertical
strokes over `2 ≤ y ≤ 10`).  `imgB` omits the third marker; `imgC` adds a
marker at `x = 4`, directly right of the table's left edge `col0 = 3`. -/

def imgA : Image :=
  ⟨40, 30, fun x y =>
    if (y = 6 ∨ y = 12 ∨ y = 18 ∨ y = 24) ∧ (0 ≤ x ∧ x ≤ 37) then black
    else if (x = 13 ∨ x = 23 ∨ x = 33) ∧ (2 ≤ y ∧ y ≤ 10) then black
    else white⟩

def imgB : Image :=
  ⟨40, 30, fun x y =>
    if (y = 6 ∨ y = 12 ∨ y = 18 ∨ y = 24) ∧ (0 ≤ x ∧ x ≤ 37) then black
    else if (x = 13 ∨ x = 23) ∧ (2 ≤ y ∧ y ≤ 10) then black
    else white⟩

def imgC : Image :=
  ⟨40, 30, fun x y =>
    if (y = 6 ∨ y = 12 ∨ y = 18 ∨ y = 24) ∧ (0 ≤ x ∧ x ≤ 37) then black
    else if (x = 4 ∨ x = 13 ∨ x = 23) ∧ (2 ≤ y ∧ y ≤ 10) then black
    else white⟩

/-- The skeleton `prime` produces for `imgA` (checked by evaluation in
the theorems below): the rebased rows/columns after halving the first
column's right bound and splitting the last column. -/
def skA : Skeleton :=
  ⟨30, 18, [⟨0, 0, 6⟩, ⟨1, 6, 12⟩, ⟨2, 12, 18⟩],
   [⟨0, 0, 5⟩, ⟨1, 10, 20⟩, ⟨2, 20, 25⟩, ⟨3, 25, 30⟩]⟩

/-- A `WORD` detection whose centre `(21, 3)` lands in the In column
(column 2) of row 0 of `skA`, carrying the time text `"08.47"`. -/
def dIn : TextDetection :=
  ⟨some "WORD", "08.47", ⟨7/10, 1/9, 1/30, 1/9⟩⟩

instance : Inhabited Row := ⟨⟨0, 0, 0⟩⟩

instance : Inhabited Col := ⟨⟨0, 0, 0⟩⟩

/-- The rebase step of `prime` (lines `rows.Shift(-rows[0].Top)`,
`cols.Shift(-cols[0].Left)`), as an operation: shift so the first
element starts at 0.  On an empty list the offset is taken from the
default element (Go would panic earlier in that case). -/
def rebaseRows (rs : Rows) : Rows := rs.Shift (-(rs.headD default).Top)

/-- Column version of `rebaseRows`. -/
def rebaseCols (cs : Cols) : Cols := cs.Shift (-(cs.headD default).Left)

/-! ## Generic helpers -/

instance {ε α : Type} [DecidableEq ε] [DecidableEq α] : DecidableEq (Except ε α) :=
  fun a b =>
    match a, b with
    | .ok x, .ok y =>
      if h : x = y then .isTrue (by rw [h]) else .isFalse (by intro hc; cases hc; exact h rfl)
    | .error x, .error y =>
      if h : x = y then .isTrue (by rw [h]) else .isFalse (by intro hc; cases hc; exact h rfl)
    | .ok _, .error _ => .isFalse (by intro hc; cases hc)
    | .error _, .ok _ => .isFalse (by intro hc; cases hc)

/-! ## Structural invariants of the detected grid

`RowChain t n l` says: the rows of `l` tile the vertical span starting at
`t` contiguously (each `Top` is the previous `Bottom`), each row is
non-degenerate (`Top < Bottom`), and they are numbered consecutively from
`n`.  `RowChainW` is the weak variant (possibly degenerate spans) used for
the `Find` coverage lemmas.  `findRows` establishes the strong form;
the schema reconciliation in `prime` preserves only the weak form. -/

def rowChainEnd (t : Int) : List Row → Int
  | [] => t
  | r :: rs => rowChainEnd r.Bottom rs

def RowChain : Int → Nat → List Row → Prop
  | _, _, [] => True
  | t, n, r :: rs => r.Top = t ∧ t < r.Bottom ∧ r.Num = n ∧ RowChain r.Bottom (n + 1) rs

def RowChainW : Int → List Row → Prop
  | _, [] => True
  | t, r :: rs => r.Top = t ∧ t ≤ r.Bottom ∧ RowChainW r.Bottom rs

def colChainEnd (t : Int) : List Col → Int
  | [] => t
  | c :: cs => colChainEnd c.Right cs

def ColChain : Int → Nat → List Col → Prop
  | _, _, [] => True
  | t, n, c :: cs => c.Left = t ∧ t < c.Right ∧ c.Num = n ∧ ColChain c.Right (n + 1) cs

def ColChainW : Int → List Col → Prop
  | _, [] => True
  | t, c :: cs => c.Left = t ∧ t ≤ c.Right ∧ ColChainW c.Right cs

theorem rowChain_weaken : ∀ (t : Int) (n : Nat) (l : List Row),
    RowChain t n l → RowChainW t l
  | _, _, [], _ => trivial
  | t, n, r :: rs, h => ⟨h.1, le_of_lt h.2.1, rowChain_weaken r.Bottom (n + 1) rs h.2.2.2⟩

theorem colChain_weaken : ∀ (t : Int) (n : Nat) (l : List Col),
    ColChain t n l → ColChainW t l
  | _, _, [], _ => trivial
  | t, n, c :: cs, h => ⟨h.1, le_of_lt h.2.1, colChain_weaken c.Right (n + 1) cs h.2.2.2⟩

theorem rowChainEnd_append : ∀ (t : Int) (l : List Row) (r : Row),
    rowChainEnd t (l ++ [r]) = r.Bottom
  | _, [], _ => rfl
  | t, s :: l, r => rowChainEnd_append s.Bottom l r

theorem colChainEnd_append : ∀ (t : Int) (l : List Col) (c : Col),
    colChainEnd t (l ++ [c]) = c.Right
  | _, [], _ => rfl
  | t, s :: l, c => colChainEnd_append s.Right l c

theorem rowChain_append : ∀ (t : Int) (n : Nat) (l : List Row) (r : Row),
    RowChain t n l → r.Top = rowChainEnd t l → r.Top < r.Bottom →
    r.Num = n + l.length → RowChain t n (l ++ [r])
  | t, n, [], r, _, h1, h2, h3 => by
    simp only [rowChainEnd] at h1
    exact ⟨h1, by omega, by simpa using h3, trivial⟩
  | t, n, s :: l, r, hc, h1, h2, h3 =>
    ⟨hc.1, hc.2.1, hc.2.2.1,
      rowChain_append s.Bottom (n + 1) l r hc.2.2.2 h1 h2 (by simp at h3 ⊢; omega)⟩

theorem colChain_append : ∀ (t : Int) (n : Nat) (l : List Col) (c : Col),
    ColChain t n l → c.Left = colChainEnd t l → c.Left < c.Right →
    c.Num = n + l.length → ColChain t n (l ++ [c])
  | t, n, [], c, _, h1, h2, h3 => by
    simp only [colChainEnd] at h1
    exact ⟨h1, by omega, by simpa using h3, trivial⟩
  | t, n, s :: l, c, hc, h1, h2, h3 =>
    ⟨hc.1, hc.2.1, hc.2.2.1,
      colChain_append s.Right (n + 1) l c hc.2.2.2 h1 h2 (by simp at h3 ⊢; omega)⟩

theorem le_rowChainEndW : ∀ (t : Int) (l : List Row), RowChainW t l → t ≤ rowChainEnd t l
  | _, [], _ => le_refl _
  | t, r :: rs, h => le_trans h.2.1 (h.1 ▸ le_rowChainEndW r.Bottom rs h.2.2)

theorem le_colChainEndW : ∀ (t : Int) (l : List Col), ColChainW t l → t ≤ colChainEnd t l
  | _, [], _ => le_refl _
  | t, c :: cs, h => le_trans h.2.1 (h.1 ▸ le_colChainEndW c.Right cs h.2.2)

/-! ### The detector loops establish the chain invariant -/

theorem findRowsAux_chain (img : Image) (xs : Int) :
    ∀ (fuel : Nat) (y : Int) (curr : Row) (acc : Rows) (t : Int),
      RowChain t 0 acc → curr.Top = rowChainEnd t acc → curr.Num = acc.length →
      curr.Top < y → RowChain t 0 (findRowsAux img xs fuel y curr acc)
  | 0, _, _, _, _, hc, _, _, _ => hc
  | fuel + 1, y, curr, acc, t, hc, he, hn, hy => by
    rw [findRowsAux]
    by_cases hb : img.at xs y ≠ black
    · rw [if_pos hb]
      by_cases hg : y - curr.Top > 50
      · rw [if_pos hg]; exact hc
      · rw [if_neg hg]
        exact findRowsAux_chain img xs fuel (y + 1) curr acc t hc he hn (by omega)
    · rw [if_neg hb]
      have hc2 : RowChain t 0 (acc ++ [{ curr with Bottom := y }]) :=
        rowChain_append t 0 acc _ hc he hy (by simpa using hn)
      refine findRowsAux_chain img xs fuel (y + 1) _ _ t hc2 ?_ (by simp) (by norm_num)
      have h := rowChainEnd_append t acc { curr with Bottom := y }
      simpa using h.symm

/-- The rows returned by `findRows` tile contiguously downward from
`row0`, numbered from 0. -/
theorem findRows_chain (img : Image) (row0 : Int) :
    RowChain row0 0 (findRows img row0) :=
  findRowsAux_chain img (img.w - 5) _ (row0 + 1) _ [] row0 trivial rfl rfl
    (by norm_num)

theorem findColsAux_chain (img : Image) (row0 : Int) :
    ∀ (fuel : Nat) (x : Int) (curr : Col) (acc : Cols) (t : Int),
      ColChain t 0 acc → curr.Left = colChainEnd t acc → curr.Num = acc.length →
      curr.Left < x → ColChain t 0 (findColsAux img row0 fuel x curr acc)
  | 0, _, _, _, _, hc, _, _, _ => hc
  | fuel + 1, x, curr, acc, t, hc, he, hn, hx => by
    rw [findColsAux]
    by_cases hb : isCol img x row0
    · rw [if_pos hb]
      have hc2 : ColChain t 0 (acc ++ [{ curr with Right := x }]) :=
        colChain_append t 0 acc _ hc he hx (by simpa using hn)
      by_cases h3 : (acc ++ [{ curr with Right := x }]).length = 3
      · rw [if_pos h3]; exact hc2
      · rw [if_neg h3]
        refine findColsAux_chain img row0 fuel (x + 1) _ _ t hc2 ?_ (by simp) (by norm_num)
        have h := colChainEnd_append t acc { curr with Right := x }
        simpa using h.symm
    · rw [if_neg hb]
      exact findColsAux_chain img row0 fuel (x + 1) curr acc t hc he hn (by omega)

/-- The raw columns returned by `findCols` tile contiguously rightward
from `col0`, numbered from 0. -/
theorem findCols_chain (img : Image) (row0 col0 : Int) :
    ColChain col0 0 (findCols img row0 col0) :=
  findColsAux_chain img row0 _ (col0 + 1) _ [] col0 trivial rfl rfl
    (by norm_num)

/-! ### Chain facts used by the claims -/

theorem rowChain_shift : ∀ (t : Int) (n : Nat) (l : Rows) (o : Int),
    RowChain t n l → RowChain (t + o) n (l.Shift o)
  | _, _, [], _, _ => trivial
  | t, n, r :: rs, o, h => by
    obtain ⟨h1, h2, h3, h4⟩ := h
    refine ⟨by simp [Rows.Shift, h1], by simpa using add_lt_add_right h2 o,
      by simp [Rows.Shift, h3], ?_⟩
    simpa [Rows.Shift] using rowChain_shift r.Bottom (n + 1) rs o h4

theorem colChain_shift : ∀ (t : Int) (n : Nat) (l : Cols) (o : Int),
    ColChain t n l → ColChain (t + o) n (l.Shift o)
  | _, _, [], _, _ => trivial
  | t, n, c :: cs, o, h => by
    obtain ⟨h1, h2, h3, h4⟩ := h
    refine ⟨by simp [Cols.Shift, h1], by simpa using add_lt_add_right h2 o,
      by simp [Cols.Shift, h3], ?_⟩
    simpa [Cols.Shift] using colChain_shift c.Right (n + 1) cs o h4

theorem rowChainEnd_getLast : ∀ (t : Int) (l : Rows) (r : Row),
    l.getLast? = some r → rowChainEnd t l = r.Bottom
  | _, [], _, h => by simp at h
  | t, [s], r, h => by
    simp at h
    simp [rowChainEnd, h]
  | t, s :: s2 :: l, r, h => by
    rw [List.getLast?_cons_cons] at h
    exact rowChainEnd_getLast s.Bottom (s2 :: l) r h

theorem colChainEnd_getLast : ∀ (t : Int) (l : Cols) (c : Col),
    l.getLast? = some c → colChainEnd t l = c.Right
  | _, [], _, h => by simp at h
  | t, [s], c, h => by
    simp at h
    simp [colChainEnd, h]
  | t, s :: s2 :: l, c, h => by
    rw [List.getLast?_cons_cons] at h
    exact colChainEnd_getLast s.Right (s2 :: l) c h

/-! ### `Find` coverage over a (weak) chain -/

theorem rowFind_of_lt : ∀ (t : Int) (l : Rows) (y : Int),
    RowChainW t l → y < t → Rows.Find l y = .error "not found"
  | _, [], _, _, _ => rfl
  | t, r :: rs, y, h, hy => by
    obtain ⟨h1, h2, h3⟩ := h
    rw [Rows.Find, if_neg (by omega)]
    exact rowFind_of_lt r.Bottom rs y h3 (by omega)

theorem colFind_of_lt : ∀ (t : Int) (l : Cols) (x : Int),
    ColChainW t l → x < t → Cols.Find l x = .error "not found"
  | _, [], _, _, _ => rfl
  | t, c :: cs, x, h, hx => by
    obtain ⟨h1, h2, h3⟩ := h
    rw [Cols.Find, if_neg (by omega)]
    exact colFind_of_lt c.Right cs x h3 (by omega)

theorem rowFind_of_gt : ∀ (t : Int) (l : Rows) (y : Int),
    RowChainW t l → rowChainEnd t l < y → Rows.Find l y = .error "not found"
  | _, [], _, _, _ => rfl
  | t, r :: rs, y, h, hy => by
    obtain ⟨h1, h2, h3⟩ := h
    have hend : r.Bottom ≤ rowChainEnd r.Bottom rs := le_rowChainEndW _ _ h3
    rw [rowChainEnd] at hy
    rw [Rows.Find, if_neg (by omega)]
    exact rowFind_of_gt r.Bottom rs y h3 hy

theorem colFind_of_gt : ∀ (t : Int) (l : Cols) (x : Int),
    ColChainW t l → colChainEnd t l < x → Cols.Find l x = .error "not found"
  | _, [], _, _, _ => rfl
  | t, c :: cs, x, h, hx => by
    obtain ⟨h1, h2, h3⟩ := h
    have hend : c.Right ≤ colChainEnd c.Right cs := le_colChainEndW _ _ h3
    rw [colChainEnd] at hx
    rw [Cols.Find, if_neg (by omega)]
    exact colFind_of_gt c.Right cs x h3 hx

theorem rowFind_isOk : ∀ (t : Int) (l : Rows) (y : Int),
    RowChainW t l → l ≠ [] → t ≤ y → y ≤ rowChainEnd t l →
    ∃ m, Rows.Find l y = .ok m
  | _, [], _, _, hne, _, _ => absurd rfl hne
  | t, r :: rs, y, h, _, hy1, hy2 => by
    obtain ⟨h1, h2, h3⟩ := h
    by_cases hb : y ≤ r.Bottom
    · exact ⟨r.Num, by rw [Rows.Find, if_pos ⟨by omega, hb⟩]⟩
    · have hne2 : rs ≠ [] := by
        intro he
        rw [he] at hy2
        rw [rowChainEnd, rowChainEnd] at hy2
        omega
      obtain ⟨m, hm⟩ := rowFind_isOk r.Bottom rs y h3 hne2 (by omega)
        (by rw [rowChainEnd] at hy2; exact hy2)
      exact ⟨m, by rw [Rows.Find, if_neg (by omega)]; exact hm⟩

theorem colFind_isOk : ∀ (t : Int) (l : Cols) (x : Int),
    ColChainW t l → l ≠ [] → t ≤ x → x ≤ colChainEnd t l →
    ∃ m, Cols.Find l x = .ok m
  | _, [], _, _, hne, _, _ => absurd rfl hne
  | t, c :: cs, x, h, _, hx1, hx2 => by
    obtain ⟨h1, h2, h3⟩ := h
    by_cases hb : x ≤ c.Right
    · exact ⟨c.Num, by rw [Cols.Find, if_pos ⟨by omega, hb⟩]⟩
    · have hne2 : cs ≠ [] := by
        intro he
        rw [he] at hx2
        rw [colChainEnd, colChainEnd] at hx2
        omega
      obtain ⟨m, hm⟩ := colFind_isOk c.Right cs x h3 hne2 (by omega)
        (by rw [colChainEnd] at hx2; exact hx2)
      exact ⟨m, by rw [Cols.Find, if_neg (by omega)]; exact hm⟩

theorem rowChain_map_num : ∀ (t : Int) (n : Nat) (l : Rows),
    RowChain t n l → l.map Row.Num = List.range' n l.length
  | _, _, [], _ => rfl
  | t, n, r :: rs, h => by
    obtain ⟨h1, h2, h3, h4⟩ := h
    simp only [List.map_cons, List.length_cons, List.range'_succ, h3,
      rowChain_map_num r.Bottom (n + 1) rs h4]

theorem colChain_map_num : ∀ (t : Int) (n : Nat) (l : Cols),
    ColChain t n l → l.map Col.Num = List.range' n l.length
  | _, _, [], _ => rfl
  | t, n, c :: cs, h => by
    obtain ⟨h1, h2, h3, h4⟩ := h
    simp only [List.map_cons, List.length_cons, List.range'_succ, h3,
      colChain_map_num c.Right (n + 1) cs h4]

theorem rowChain_lt_of_mem : ∀ (t : Int) (n : Nat) (l : Rows) (r : Row),
    RowChain t n l → r ∈ l → r.Top < r.Bottom
  | _, _, [], _, _, hm => absurd hm (List.not_mem_nil _)
  | t, n, s :: rs, r, h, hm => by
    obtain ⟨h1, h2, h3, h4⟩ := h
    rcases List.mem_cons.1 hm with he |ht
    · rw [he, h1]; exact h2
    · exact rowChain_lt_of_mem s.Bottom (n + 1) rs r h4 ht

theorem colChain_lt_of_mem : ∀ (t : Int) (n : Nat) (l : Cols) (c : Col),
    ColChain t n l → c ∈ l → c.Left < c.Right
  | _, _, [], _, _, hm => absurd hm (List.not_mem_nil _)
  | t, n, s :: cs, c, h, hm => by
    obtain ⟨h1, h2, h3, h4⟩ := h
    rcases List.mem_cons.1 hm with he | ht
    · rw [he, h1]; exact h2
    · exact colChain_lt_of_mem s.Right (n + 1) cs c h4 ht

theorem rowChain_adj : ∀ (t : Int) (n : Nat) (l : Rows) (i : Nat),
    RowChain t n l → i + 1 < l.length →
    (l.getD i default).Bottom = (l.getD (i + 1) default).Top
  | _, _, [], _, _, hi => absurd hi (by simp)
  | t, n, [r], _, _, hi => absurd hi (by simp)
  | t, n, r :: s :: rs, 0, h, _ => by
    have hs : s.Top = r.Bottom := h.2.2.2.1
    simp [hs]
  | t, n, r :: s :: rs, i + 1, h, hi =>
    rowChain_adj r.Bottom (n + 1) (s :: rs) i h.2.2.2 (by simpa using hi)

theorem colChain_adj : ∀ (t : Int) (n : Nat) (l : Cols) (i : Nat),
    ColChain t n l → i + 1 < l.length →
    (l.getD i default).Right = (l.getD (i + 1) default).Left
  | _, _, [], _, _, hi => absurd hi (by simp)
  | t, n, [c], _, _, hi => absurd hi (by simp)
  | t, n, c :: s :: cs, 0, h, _ => by
    have hs : s.Left = c.Right := h.2.2.2.1
    simp [hs]
  | t, n, c :: s :: cs, i + 1, h, hi =>
    colChain_adj c.Right (n + 1) (s :: cs) i h.2.2.2 (by simpa using hi)

/-- What a successful `Rows.Find` returns: the number of a containing row. -/
theorem rowFind_ok_mem : ∀ (l : Rows) (y : Int) (n : Nat),
    Rows.Find l y = .ok n → ∃ r ∈ l, r.Num = n ∧ r.Top ≤ y ∧ y ≤ r.Bottom
  | [], _, _, h => by cases h
  | r :: rs, y, n, h => by
    rw [Rows.Find] at h
    by_cases hb : r.Top ≤ y ∧ y ≤ r.Bottom
    · rw [if_pos hb] at h
      cases h
      exact ⟨r, List.mem_cons_self r rs, rfl, hb⟩
    · rw [if_neg hb] at h
      obtain ⟨s, hm, hs⟩ := rowFind_ok_mem rs y n h
      exact ⟨s, List.mem_cons_of_mem r hm, hs⟩

/-- What a successful `Cols.Find` returns: the number of a containing column. -/
theorem colFind_ok_mem : ∀ (l : Cols) (x : Int) (n : Nat),
    Cols.Find l x = .ok n → ∃ c ∈ l, c.Num = n ∧ c.Left ≤ x ∧ x ≤ c.Right
  | [], _, _, h => by cases h
  | c :: cs, x, n, h => by
    rw [Cols.Find] at h
    by_cases hb : c.Left ≤ x ∧ x ≤ c.Right
    · rw [if_pos hb] at h
      cases h
      exact ⟨c, List.mem_cons_self c cs, rfl, hb⟩
    · rw [if_neg hb] at h
      obtain ⟨s, hm, hs⟩ := colFind_ok_mem cs x n h
      exact ⟨s, List.mem_cons_of_mem c hm, hs⟩

/-! ### Helper theorems for the claims -/

theorem list_len3 {α : Type} (l : List α) (h : l.length = 3) :
    ∃ a b c, l = [a, b, c] := by
  match l with
  | [a, b, c] => exact ⟨a, b, c, rfl⟩
  | [] => simp at h
  | [_] => simp at h
  | [_, _] => simp at h
  | _ :: _ :: _ :: _ :: _ => simp at h

theorem rowsShift_zero : ∀ rs : Rows, rs.Shift 0 = rs
  | [] => rfl
  | r :: t => by
    show ({ r with Top := r.Top + 0, Bottom := r.Bottom + 0 } : Row) :: Rows.Shift t 0 = r :: t
    rw [rowsShift_zero t]
    cases r
    simp

theorem colsShift_zero : ∀ cs : Cols, cs.Shift 0 = cs
  | [] => rfl
  | c :: t => by
    show ({ c with Left := c.Left + 0, Right := c.Right + 0 } : Col) :: Cols.Shift t 0 = c :: t
    rw [colsShift_zero t]
    cases c
    simp

theorem find4_spec (ta a b m w x : Int)
    (h1 : 0 ≤ ta) (h2 : ta < a) (h3 : a < b) (h4 : b ≤ m) (h5 : m ≤ w) :
    ((0 ≤ x ∧ x ≤ ta) ∨ (a ≤ x ∧ x ≤ w) →
      ∃ k, Cols.Find [⟨0, 0, ta⟩, ⟨1, a, b⟩, ⟨2, b, m⟩, ⟨3, m, w⟩] x = .ok k) ∧
    (ta < x ∧ x < a →
      Cols.Find [⟨0, 0, ta⟩, ⟨1, a, b⟩, ⟨2, b, m⟩, ⟨3, m, w⟩] x = .error "not found") ∧
    (x < 0 ∨ w < x →
      Cols.Find [⟨0, 0, ta⟩, ⟨1, a, b⟩, ⟨2, b, m⟩, ⟨3, m, w⟩] x = .error "not found") := by
  refine ⟨?_, ?_, ?_⟩ <;> intro hx <;>
    simp only [Cols.Find] <;> split_ifs <;> first
      | exact ⟨_, rfl⟩
      | rfl
      | (exfalso; omega)

theorem primeSkeleton_eq (img : Image) (row0 col0 : Int)
    (r0 rl : Row) (c0 cl : Col)
    (h0 : findRow0 img = .ok row0) (h1 : findCol0 img row0 = .ok col0)
    (hr0 : (findRows img row0).head? = some r0)
    (hrl : (findRows img row0).getLast? = some rl)
    (hc0 : (findCols img row0 col0).head? = some c0)
    (hcl : (findCols img row0 col0).getLast? = some cl) :
    primeSkeleton img = some
      ⟨cl.Right - c0.Left, rl.Bottom - r0.Top,
       (findRows img row0).Shift (-r0.Top),
       splitLast (halveFirst ((findCols img row0 col0).Shift (-c0.Left)))⟩ := by
  simp only [primeSkeleton, h0, h1, hr0, hrl, hc0, hcl]

theorem reconcile3_eq (A B C : Col) (hA : A.Num = 0) (hB : B.Num = 1) (hC : C.Num = 2) :
    splitLast (halveFirst (Cols.Shift [A, B, C] (-A.Left))) =
      [⟨0, A.Left + -A.Left, Int.tdiv (A.Right + -A.Left) 2⟩,
       ⟨1, B.Left + -A.Left, B.Right + -A.Left⟩,
       ⟨2, C.Left + -A.Left,
        C.Right + -A.Left - Int.tdiv (C.Right + -A.Left - (C.Left + -A.Left)) 2⟩,
       ⟨3, C.Right + -A.Left - Int.tdiv (C.Right + -A.Left - (C.Left + -A.Left)) 2,
        C.Right + -A.Left⟩] := by
  simp [Cols.Shift, halveFirst, splitLast, Col.Split, hA, hB, hC]

theorem find_pos_row (l : Rows) (hnum : l.map Row.Num = List.range l.length) :
    ∀ (y : Int) (n : Nat), Rows.Find l y = .ok n → n < l.length ∧
      (l.getD n default).Top ≤ y ∧ y ≤ (l.getD n default).Bottom := by
  intro y n hfind
  obtain ⟨r, hm, hnm, hy1, hy2⟩ := rowFind_ok_mem l y n hfind
  obtain ⟨i, hi, hget⟩ := List.mem_iff_getElem.1 hm
  have hi2 : i < (l.map Row.Num).length := by simpa using hi
  have hmap : (l.map Row.Num).get ⟨i, hi2⟩ = r.Num := by
    simp only [List.get_eq_getElem, List.getElem_map]
    rw [hget]
  have hrange : (l.map Row.Num).get ⟨i, hi2⟩ = i := by
    simp only [List.get_eq_getElem]
    simp only [hnum]
    simp
  have hni : n = i := by rw [← hnm, ← hmap, hrange]
  subst hni
  have hgetD : l.getD n default = r := by
    rw [List.getD_eq_getElem l default hi, hget]
  rw [hgetD]
  exact ⟨hi, hy1, hy2⟩

theorem find_pos_col (l : Cols) (hnum : l.map Col.Num = List.range l.length) :
    ∀ (x : Int) (n : Nat), Cols.Find l x = .ok n → n < l.length ∧
      (l.getD n default).Left ≤ x ∧ x ≤ (l.getD n default).Right := by
  intro x n hfind
  obtain ⟨c, hm, hnm, hx1, hx2⟩ := colFind_ok_mem l x n hfind
  obtain ⟨i, hi, hget⟩ := List.mem_iff_getElem.1 hm
  have hi2 : i < (l.map Col.Num).length := by simpa using hi
  have hmap : (l.map Col.Num).get ⟨i, hi2⟩ = c.Num := by
    simp only [List.get_eq_getElem, List.getElem_map]
    rw [hget]
  have hrange : (l.map Col.Num).get ⟨i, hi2⟩ = i := by
    simp only [List.get_eq_getElem]
    simp only [hnum]
    simp
  have hni : n = i := by rw [← hnm, ← hmap, hrange]
  subst hni
  have hgetD : l.getD n default = c := by
    rw [List.getD_eq_getElem l default hi, hget]
  rw [hgetD]
  exact ⟨hi, hx1, hx2⟩

theorem average_foldl (ext : Entry → Option GoTime) : ∀ (l : List Entry) (a c : Nat),
    l.foldl (fun (acc : Nat × Nat) e =>
      match ext e with
      | none => acc
      | some v => (acc.1 + (v.hour * nsPerHour + v.minute * nsPerMinute), acc.2 + 1)) (a, c) =
    (a + (l.filterMap fun e => (ext e).map fun v =>
        v.hour * nsPerHour + v.minute * nsPerMinute).sum,
     c + (l.filterMap fun e => (ext e).map fun v =>
        v.hour * nsPerHour + v.minute * nsPerMinute).length)
  | [], a, c => by simp
  | e :: l, a, c => by
    cases he : ext e with
    | none =>
      simp only [List.foldl_cons, he, List.filterMap_cons]
      simpa [he] using average_foldl ext l a c
    | some v =>
      simp only [List.foldl_cons, he, List.filterMap_cons]
      rw [average_foldl ext l]
      simp [he]
      omega

theorem average_eq_spec (entries : List Entry) (ext : Entry → Option GoTime) (dflt : Nat) :
    average entries ext dflt = specAverage entries ext dflt := by
  unfold average specAverage
  rw [average_foldl]
  simp

/-- C9: `averageIn`/`averageOut` return the sum of the set entries'
hour/minute durations since midnight divided by their count, rounded to
the nearest 15-minute boundary, when at least one entry has the field
set; the default (09:00 / 17:00) unmodified otherwise; and the average
over [09:00, 09:30] is exactly 09:15. -/
theorem average_spec :
    (∀ entries, averageIn entries =
      specAverage entries (fun e => e.inTime) (9 * nsPerHour)) ∧
    (∀ entries, averageOut entries =
      specAverage entries (fun e => e.outTime) (17 * nsPerHour)) ∧
    averageIn [⟨GoTime.zero, "", some ⟨2023, 1, 5, 9, 0⟩, none⟩,
      ⟨GoTime.zero, "", some ⟨2023, 1, 6, 9, 30⟩, none⟩] =
        9 * nsPerHour + 15 * nsPerMinute ∧
    averageIn [] = 9 * nsPerHour ∧ averageOut [] = 17 * nsPerHour := by
  refine ⟨fun entries => ?_, fun entries => ?_, by decide, by decide, by decide⟩
  · exact average_eq_spec entries (fun e => e.inTime) (9 * nsPerHour)
  · exact average_eq_spec entries (fun e => e.outTime) (17 * nsPerHour)

/-- C5: rebasing (shifting rows by `-rows[0].Top` and cols by
`-cols[0].Left`) is idempotent: after one rebase the first element starts
at 0, so the recomputed offset of a second rebase is 0 and every
`Top`/`Bottom`/`Left`/`Right` coordinate is left exactly as after the
first — an absolute rebase, with no double-shift. -/
theorem rebase_idempotent (rows : Rows) (cols : Cols) :
    rebaseRows (rebaseRows rows) = rebaseRows rows ∧
    rebaseCols (rebaseCols cols) = rebaseCols cols := by
  constructor
  · cases rows with
    | nil => rfl
    | cons r t =>
      show Rows.Shift (({ r with Top := r.Top + -r.Top, Bottom := r.Bottom + -r.Top } : Row)
        :: Rows.Shift t (-r.Top)) (-(r.Top + -r.Top)) = rebaseRows (r :: t)
      rw [show -(r.Top + -r.Top) = (0 : Int) by omega]
      exact rowsShift_zero _
  · cases cols with
    | nil => rfl
    | cons c t =>
      show Cols.Shift (({ c with Left := c.Left + -c.Left, Right := c.Right + -c.Left } : Col)
        :: Cols.Shift t (-c.Left)) (-(c.Left + -c.Left)) = rebaseCols (c :: t)
      rw [show -(c.Left + -c.Left) = (0 : Int) by omega]
      exact colsShift_zero _

/-- C8: `fixEntry` fails exactly when both or neither time is set; with
exactly one set, the missing side is filled with `date + average` and the
result is the "⟨date⟩: arrived at HH:MM, left at HH:MM" string. -/
theorem fixEntry_spec (e : Entry) (avgIn avgOut : Nat) :
    ((∃ err, fixEntry e avgIn avgOut = .error err) ↔
      ((e.inTime = none ∧ e.outTime = none) ∨ (e.inTime ≠ none ∧ e.outTime ≠ none))) ∧
    (∀ t, e.inTime = some t → e.outTime = none →
      fixEntry e avgIn avgOut = .ok (e.date.formatPrettyDate ++ ": arrived at " ++
        t.formatPrettyTime ++ ", left at " ++ (e.date.Add avgOut).formatPrettyTime)) ∧
    (∀ t, e.outTime = some t → e.inTime = none →
      fixEntry e avgIn avgOut = .ok (e.date.formatPrettyDate ++ ": arrived at " ++
        (e.date.Add avgIn).formatPrettyTime ++ ", left at " ++ t.formatPrettyTime)) := by
  unfold fixEntry
  rcases hin : e.inTime with _ | tin <;> rcases hout : e.outTime with _ | tout <;>
    simp [hin, hout]

/-- Witness for C8: with only `inTime = 08:47` and average-out 17:00 the
fix is "05/01: arrived at 08:47, left at 17:00"; with both or neither
time set it fails. -/
theorem fixEntry_spec_witness :
    fixEntry ⟨⟨2023, 1, 5, 0, 0⟩, "UnclosedDay", some ⟨2023, 1, 5, 8, 47⟩, none⟩ 0
      (17 * nsPerHour) = .ok "05/01: arrived at 08:47, left at 17:00" ∧
    (∃ err, fixEntry ⟨⟨2023, 1, 5, 0, 0⟩, "", some ⟨2023, 1, 5, 8, 47⟩,
      some ⟨2023, 1, 5, 17, 0⟩⟩ 0 0 = .error err) ∧
    (∃ err, fixEntry ⟨⟨2023, 1, 5, 0, 0⟩, "", none, none⟩ 0 0 = .error err) := by
  refine ⟨?_, ?_, ?_⟩
  · exact ((fixEntry_spec _ 0 (17 * nsPerHour)).2.1 _ rfl rfl).trans (by decide)
  · exact (fixEntry_spec _ 0 0).1.2 (Or.inr ⟨by simp, by simp⟩)
  · exact (fixEntry_spec _ 0 0).1.2 (Or.inl ⟨rfl, rfl⟩)

theorem domagic_foldl (aIn aOut : Nat) : ∀ (l : List Entry) (a b : List String),
    l.foldl (fun (acc : List String × List String) e =>
      if e.activity = "" then acc
      else
        let datefmt := e.date.formatPrettyDate
        if e.activity = "UnclosedDay" then
          let p := datefmt ++ ": Unclosed day"
          match fixEntry e aIn aOut with
          | .error _ => (acc.1 ++ [p], acc.2)
          | .ok fix => (acc.1 ++ [p], acc.2 ++ [fix])
        else if e.activity = "Vacation/Una" then
          (acc.1 ++ [datefmt ++ ": Missing report"], acc.2)
        else (acc.1 ++ [datefmt ++ ": " ++ e.activity], acc.2)) (a, b) =
    (a ++ l.filterMap problemOf, b ++ l.filterMap (fixOf aIn aOut))
  | [], a, b => by simp
  | e :: l, a, b => by
    by_cases h1 : e.activity = ""
    · simp only [List.foldl_cons, List.filterMap_cons, if_pos h1]
      rw [domagic_foldl aIn aOut l a b]
      have hp : problemOf e = none := by simp [problemOf, h1]
      have hf : fixOf aIn aOut e = none := by simp [fixOf, h1]
      rw [hp, hf]
    · by_cases h2 : e.activity = "UnclosedDay"
      · cases hfix : fixEntry e aIn aOut with
        | error err =>
          simp only [List.foldl_cons, List.filterMap_cons, if_neg h1, if_pos h2, hfix]
          rw [domagic_foldl aIn aOut l]
          have hp : problemOf e = some (e.date.formatPrettyDate ++ ": Unclosed day") := by
            simp [problemOf, h1, h2]
          have hf : fixOf aIn aOut e = none := by
            simp [fixOf, h2, hfix, Except.toOption]
          rw [hp, hf]
          simp
        | ok fx =>
          simp only [List.foldl_cons, List.filterMap_cons, if_neg h1, if_pos h2, hfix]
          rw [domagic_foldl aIn aOut l]
          have hp : problemOf e = some (e.date.formatPrettyDate ++ ": Unclosed day") := by
            simp [problemOf, h1, h2]
          have hf : fixOf aIn aOut e = some fx := by
            simp [fixOf, h2, hfix, Except.toOption]
          rw [hp, hf]
          simp
      · by_cases h3 : e.activity = "Vacation/Una"
        · simp only [List.foldl_cons, List.filterMap_cons, if_neg h1, if_neg h2, if_pos h3]
          rw [domagic_foldl aIn aOut l]
          have hp : problemOf e = some (e.date.formatPrettyDate ++ ": Missing report") := by
            simp [problemOf, h1, h2, h3]
          have hf : fixOf aIn aOut e = none := by simp [fixOf, h2]
          rw [hp, hf]
          simp
        · simp only [List.foldl_cons, List.filterMap_cons, if_neg h1, if_neg h2, if_neg h3]
          rw [domagic_foldl aIn aOut l]
          have hp : problemOf e = some (e.date.formatPrettyDate ++ ": " ++ e.activity) := by
            simp [problemOf, h1, h2, h3]
          have hf : fixOf aIn aOut e = none := by simp [fixOf, h2]
          rw [hp, hf]
          simp

/-- C7: per entry of the completed sequence, an empty activity produces
no problem; `"UnclosedDay"` produces "⟨date⟩: Unclosed day" plus an
attempted fix whose generation failure is skipped (never aborting report
generation); `"Vacation/Una"` produces "⟨date⟩: Missing report" with no
fix; any other non-empty activity produces "⟨date⟩: ⟨activity⟩" verbatim
with no fix. -/
theorem domagic_spec (entries : List Entry) :
    domagic entries = ⟨entries.filterMap problemOf,
      entries.filterMap (fixOf (averageIn entries) (averageOut entries))⟩ := by
  unfold domagic
  dsimp only
  rw [domagic_foldl]
  simp

/-- C2 (amended): for an 11-character input, `parseDate` *replaces* the
first occurrence of `"1/"` with `"1"` (deleting only the `/`); if the
result has length 10 it recurses into the length-10 rule, otherwise it
fails with the unrecognized-date-format error. -/
theorem parseDate_len11 (s : String) (h : s.length = 11) :
    parseDate s =
      (if ((⟨replaceFirst1Slash s.toList⟩ : String)).length = 10 then
        parseDate ⟨replaceFirst1Slash s.toList⟩
      else .error ("unexpected date format: " ++ s)) := by
  conv_lhs => rw [parseDate]
  rw [if_neg (by omega), if_neg (by omega), if_pos h]
  by_cases h10 : ((⟨replaceFirst1Slash s.toList⟩ : String)).length = 10
  · rw [if_pos h10, if_pos h10]
    conv_rhs => rw [parseDate]
    rw [if_neg (by omega), if_pos h10]
  · rw [if_neg h10, if_neg h10]

/-- Witness for C2 at a concrete 11-character input: the `/` of the
leading `"1/"` is dropped and the remaining 10 characters parse as
11 January 2023. -/
theorem parseDate_len11_witness :
    parseDate "1/1/01/2023" = .ok ⟨2023, 1, 11, 0, 0⟩ :=
  (parseDate_len11 "1/1/01/2023" (by decide)).trans (by decide)

/-- Counterexample for C2 as stated: *removing* the 2-character substring
`"1/"` from an 11-character string leaves 9 characters, never 10, so
under the claim's reading `parseDate "1/1/01/2023"` would have to fail
with the unrecognized-date-format error — but it succeeds. -/
theorem parseDate_len11_cex :
    ("1/1/01/2023" : String).length = 11 ∧
    ¬ (parseDate "1/1/01/2023" =
        (if ((⟨removeFirst1Slash "1/1/01/2023".toList⟩ : String)).length = 10 then
          parseDate ⟨removeFirst1Slash "1/1/01/2023".toList⟩
        else .error ("unexpected date format: " ++ "1/1/01/2023"))) := by
  constructor
  · decide
  · decide

/-- C6 (amended): the cleaning pass whitens each Row's **top** scanline
and each Col's **right** pixel column across the full image extent.
(Interior bottoms/lefts coincide with the next top/previous right and are
therefore also whitened, but the last row's bottom line and the first
column's left line are not touched — see the counterexample.) -/
theorem clean_whitens (img : Image) (rows : Rows) (cols : Cols) :
    (∀ r ∈ rows, ∀ x : Int, 0 ≤ x → x < img.w → 0 ≤ r.Top → r.Top < img.h →
      ( clean img rows cols).at x r.Top = white) ∧
    (∀ c ∈ cols, ∀ y : Int, 0 ≤ y → y < img.h → 0 ≤ c.Right → c.Right < img.w →
      ( clean img rows cols).at c.Right y = white) := by
  constructor
  · intro r hr x hx1 hx2 ht1 ht2
    have hb : (0 ≤ x ∧ x < img.w ∧ 0 ≤ r.Top ∧ r.Top < img.h) := ⟨hx1, hx2, ht1, ht2⟩
    show (if 0 ≤ x ∧ x < img.w ∧ 0 ≤ r.Top ∧ r.Top < img.h
      then ( clean img rows cols).pix x r.Top else ⟨0, 0, 0, 0⟩) = white
    rw [if_pos hb]
    show (if rows.any (fun s => s.Top = r.Top) then white
      else if cols.any (fun c => c.Right = x) then white else img.pix x r.Top) = white
    rw [if_pos (List.any_eq_true.2 ⟨r, hr, by simp⟩)]
  · intro c hc y hy1 hy2 hr1 hr2
    have hb : (0 ≤ c.Right ∧ c.Right < img.w ∧ 0 ≤ y ∧ y < img.h) := ⟨hr1, hr2, hy1, hy2⟩
    show (if 0 ≤ c.Right ∧ c.Right < img.w ∧ 0 ≤ y ∧ y < img.h
      then ( clean img rows cols).pix c.Right y else ⟨0, 0, 0, 0⟩) = white
    rw [if_pos hb]
    show (if rows.any (fun s => s.Top = y) then white
      else if cols.any (fun d => d.Right = c.Right) then white else img.pix c.Right y) = white
    by_cases ha : rows.any (fun s => s.Top = y)
    · rw [if_pos ha]
    · rw [if_neg ha, if_pos (List.any_eq_true.2 ⟨c, hc, by simp⟩)]

/-- Witness for C6 on the concrete detected grid of `imgA`: the top line
of the last row (`y = 18`) and the right line of the first raw column
(`x = 13`) are whitened across the extent. -/
theorem clean_whitens_witness :
    ( clean imgA (findRows imgA 6) (findCols imgA 6 3)).at 20 18 = white ∧
    ( clean imgA (findRows imgA 6) (findCols imgA 6 3)).at 13 20 = white := by
  constructor
  · exact (clean_whitens imgA (findRows imgA 6) (findCols imgA 6 3)).1
      ⟨2, 18, 24⟩ (by decide) 20 (by decide) (by decide) (by decide) (by decide)
  · exact (clean_whitens imgA (findRows imgA 6) (findCols imgA 6 3)).2
      ⟨0, 3, 13⟩ (by decide) 20 (by decide) (by decide) (by decide) (by decide)

/-- Counterexample for C6 as stated: on `imgA` the detector's last row is
`{Num 2, Top 18, Bottom 24}`, and after `clean` the pixel `(0, 24)` on
that row's **bottom** line is still black, not the background colour. -/
theorem clean_whitens_cex :
    (findRows imgA 6).getLast? = some ⟨2, 18, 24⟩ ∧
    findRow0 imgA = .ok 6 ∧ findCol0 imgA 6 = .ok 3 ∧
    ( clean imgA (findRows imgA 6) (findCols imgA 6 3)).at 0 24 = black ∧
    black ≠ white := by
  refine ⟨by decide, by decide, by decide, by decide, by decide⟩

/-- C1 (amended): when an In- or Out-column detection is processed before
any date detection has set the row's date, `scan` parses the time against
the **zero date** (which formats as `"01010001"`, 1 January of year 1);
the parse *succeeds* for well-formed time text — e.g. `"08.47"` becomes
08:47 on the zero date — and the scan continues; it aborts only if the
time text itself is malformed. -/
theorem scanStep_zero_date (sk : Skeleton) (entries : List Entry) (d : TextDetection)
    (r : Nat) (hw : d.dtype = some "WORD")
    (hr : sk.rows.Find (center d.box sk).2 = .ok r)
    (hz : (entries.getD r default).date = GoTime.zero) :
    (sk.cols.Find (center d.box sk).1 = .ok 2 →
      scanStep sk entries d = (match parseTime "01010001" d.text with
        | .error err => .error err
        | .ok t => .ok (entries.set r { entries.getD r default with inTime := some t }))) ∧
    (sk.cols.Find (center d.box sk).1 = .ok 3 →
      scanStep sk entries d = (match parseTime "01010001" d.text with
        | .error err => .error err
        | .ok t => .ok (entries.set r { entries.getD r default with outTime := some t }))) ∧
    GoTime.formatDate GoTime.zero = "01010001" ∧
    parseTime "01010001" "08.47" = .ok ⟨1, 1, 1, 8, 47⟩ := by
  have hfmt : GoTime.formatDate GoTime.zero = "01010001" := by decide
  refine ⟨?_, ?_, hfmt, by decide⟩ <;> intro hc <;>
    simp only [scanStep, hw, hc, hr, hz, hfmt, ne_eq, not_true_eq_false, if_false,
      reduceCtorEq, ite_false]

/-- Witness for C1 (amended): the lone In-column detection `dIn` over the
fresh (all-zero-date) entry list of `skA` yields a successful step whose
entry carries 08:47 on the zero date. -/
theorem scanStep_zero_date_witness :
    scanStep skA (List.replicate 3 {}) dIn =
      .ok [{ inTime := some ⟨1, 1, 1, 8, 47⟩ }, {}, {}] := by
  have hcen : center dIn.box skA = (21, 3) := by norm_num [center, dIn, skA, ratToInt]
  have hr : Rows.Find skA.rows (center dIn.box skA).2 = .ok 0 := by rw [hcen]; decide
  have hc : Cols.Find skA.cols (center dIn.box skA).1 = .ok 2 := by rw [hcen]; decide
  have h := (scanStep_zero_date skA (List.replicate 3 {}) dIn 0 rfl hr (by decide)).1 hc
  exact h.trans (by decide)

/-- Counterexample for C1 as stated: `dIn` resolves to the In column
(column 2) of row 0 of `skA` before any date detection has run, yet
`scan` does **not** abort — it returns successfully, with the in-time
parsed against the zero date. -/
theorem scan_zero_date_cex :
    center dIn.box skA = (21, 3) ∧
    Cols.Find skA.cols 21 = .ok 2 ∧
    Rows.Find skA.rows 3 = .ok 0 ∧
    scan [dIn] skA = .ok [{ inTime := some ⟨1, 1, 1, 8, 47⟩ }, {}, {}] := by
  have hcen : center dIn.box skA = (21, 3) := by norm_num [center, dIn, skA, ratToInt]
  have hstep : scanStep skA (List.replicate 3 {}) dIn =
      .ok [{ inTime := some ⟨1, 1, 1, 8, 47⟩ }, {}, {}] := by
    unfold scanStep
    rw [hcen]
    decide
  refine ⟨hcen, by decide, by decide, ?_⟩
  show scanStep skA (List.replicate 3 {}) dIn >>=
    (fun s => List.foldlM (scanStep skA) s []) = _
  rw [hstep]
  rfl

theorem rowChain_head_top : ∀ (t : Int) (n : Nat) (l : Rows) (h : l ≠ []),
    RowChain t n l → (l.head h).Top = t
  | _, _, [], h, _ => absurd rfl h
  | _, _, _ :: _, _, hc => hc.1

/-- C3 (amended): on a detector-produced, full-schema skeleton, `rowAt`
(`Rows.Find`) succeeds for every `0 ≤ y ≤ H` and fails outside, while
`colAt` (`Cols.Find`) succeeds on `[0, cols[0].Right] ∪ [cols[1].Left, W]`
but **fails in the interior gap** `(cols[0].Right, cols[1].Left)` opened
by halving the first column's right bound, and fails outside `[0, W]`. -/
theorem skeleton_find_spec (img : Image) (row0 col0 : Int) (sk : Skeleton)
    (h0 : findRow0 img = .ok row0) (h1 : findCol0 img row0 = .ok col0)
    (hrne : findRows img row0 ≠ [])
    (h3 : (findCols img row0 col0).length = 3)
    (hsk : primeSkeleton img = some sk) :
    (∀ y : Int, 0 ≤ y → y ≤ sk.H → ∃ m, sk.rows.Find y = .ok m) ∧
    (∀ y : Int, y < 0 ∨ sk.H < y → sk.rows.Find y = .error "not found") ∧
    (∀ x : Int, ((0 ≤ x ∧ x ≤ (sk.cols.getD 0 default).Right) ∨
        ((sk.cols.getD 1 default).Left ≤ x ∧ x ≤ sk.W)) →
      ∃ m, sk.cols.Find x = .ok m) ∧
    (∀ x : Int, (sk.cols.getD 0 default).Right < x ∧ x < (sk.cols.getD 1 default).Left →
      sk.cols.Find x = .error "not found") ∧
    (∀ x : Int, x < 0 ∨ sk.W < x → sk.cols.Find x = .error "not found") := by
  obtain ⟨A, B, C, hc⟩ := list_len3 _ h3
  have hr0 : (findRows img row0).head? = some ((findRows img row0).head hrne) :=
    List.head?_eq_head hrne
  have hrl : (findRows img row0).getLast? = some ((findRows img row0).getLast hrne) :=
    List.getLast?_eq_getLast _ hrne
  have hc0 : (findCols img row0 col0).head? = some A := by rw [hc]; rfl
  have hcl : (findCols img row0 col0).getLast? = some C := by rw [hc]; rfl
  have heq := primeSkeleton_eq img row0 col0 ((findRows img row0).head hrne)
    ((findRows img row0).getLast hrne) A C h0 h1 hr0 hrl hc0 hcl
  rw [hsk] at heq
  have hskval := Option.some.inj heq
  subst hskval
  dsimp only
  -- rows: the shifted chain starts at 0 and ends at sk.H
  have hch := findRows_chain img row0
  have hhead : ((findRows img row0).head hrne).Top = row0 :=
    rowChain_head_top _ _ _ hrne hch
  have hsh := rowChain_shift row0 0 _ (-((findRows img row0).head hrne).Top) hch
  have hofs : row0 + -((findRows img row0).head hrne).Top = 0 := by omega
  rw [hofs] at hsh
  have hw := rowChain_weaken _ _ _ hsh
  have hlast : (Rows.Shift (findRows img row0)
      (-((findRows img row0).head hrne).Top)).getLast? =
      some { (findRows img row0).getLast hrne with
        Top := ((findRows img row0).getLast hrne).Top +
          -((findRows img row0).head hrne).Top,
        Bottom := ((findRows img row0).getLast hrne).Bottom +
          -((findRows img row0).head hrne).Top } := by
    unfold Rows.Shift
    rw [List.getLast?_map, hrl]
    rfl
  have hend : rowChainEnd 0 (Rows.Shift (findRows img row0)
      (-((findRows img row0).head hrne).Top)) =
      ((findRows img row0).getLast hrne).Bottom +
        -((findRows img row0).head hrne).Top :=
    rowChainEnd_getLast 0 _ _ hlast
  have hne2 : Rows.Shift (findRows img row0)
      (-((findRows img row0).head hrne).Top) ≠ [] := by
    unfold Rows.Shift
    simpa using hrne
  -- cols: destructure the raw chain and reconcile
  have hcch := findCols_chain img row0 col0
  rw [hc] at hcch
  obtain ⟨hAL, hAR, hAN, hBL, hBR, hBN, hCL, hCR, hCN, -⟩ := hcch
  rw [hc, reconcile3_eq A B C hAN hBN hCN,
    show A.Left + -A.Left = (0 : Int) by omega, hCL]
  have hq : (0 : Int) < A.Right + -A.Left := by omega
  have hta : Int.tdiv (A.Right + -A.Left) 2 = (A.Right + -A.Left) / 2 :=
    Int.tdiv_eq_ediv (le_of_lt hq) (by omega)
  have hs : (0 : Int) < C.Right + -A.Left - (B.Right + -A.Left) := by omega
  have hts : Int.tdiv (C.Right + -A.Left - (B.Right + -A.Left)) 2 =
      (C.Right + -A.Left - (B.Right + -A.Left)) / 2 :=
    Int.tdiv_eq_ediv (le_of_lt hs) (by omega)
  have f1 : (0 : Int) ≤ Int.tdiv (A.Right + -A.Left) 2 := by rw [hta]; omega
  have f2 : Int.tdiv (A.Right + -A.Left) 2 < B.Left + -A.Left := by rw [hta]; omega
  have f3 : B.Left + -A.Left < B.Right + -A.Left := by omega
  have f4 : B.Right + -A.Left ≤
      C.Right + -A.Left - Int.tdiv (C.Right + -A.Left - (B.Right + -A.Left)) 2 := by
    rw [hts]; omega
  have f5 : C.Right + -A.Left - Int.tdiv (C.Right + -A.Left - (B.Right + -A.Left)) 2 ≤
      C.Right + -A.Left := by
    rw [hts]; omega
  have hfind := fun x => find4_spec (Int.tdiv (A.Right + -A.Left) 2) (B.Left + -A.Left)
    (B.Right + -A.Left)
    (C.Right + -A.Left - Int.tdiv (C.Right + -A.Left - (B.Right + -A.Left)) 2)
    (C.Right + -A.Left) x f1 f2 f3 f4 f5
  refine ⟨?_, ?_, ?_, ?_, ?_⟩
  · intro y hy1 hy2
    refine rowFind_isOk 0 _ y hw hne2 hy1 ?_
    rw [hend]
    omega
  · intro y hy
    rcases hy with hlt | hgt
    · exact rowFind_of_lt 0 _ y hw hlt
    · refine rowFind_of_gt 0 _ y hw ?_
      rw [hend]
      omega
  · intro x hx
    refine (hfind x).1 ?_
    simp only [List.getD_cons_zero, List.getD_cons_succ] at hx
    omega
  · intro x hx
    refine (hfind x).2.1 ?_
    simp only [List.getD_cons_zero, List.getD_cons_succ] at hx
    omega
  · intro x hx
    refine (hfind x).2.2 ?_
    omega

/-- Witness for C3 (amended) on `imgA`: rows are total on `[0, H]` and
fail outside; columns succeed in the first column and the main body but
fail in the reconciliation gap `(5, 10)` and beyond `W = 30`. -/
theorem skeleton_find_spec_witness :
    (∃ m, Rows.Find skA.rows 5 = .ok m) ∧
    Rows.Find skA.rows 19 = .error "not found" ∧
    (∃ m, Cols.Find skA.cols 12 = .ok m) ∧
    Cols.Find skA.cols 7 = .error "not found" ∧
    Cols.Find skA.cols 31 = .error "not found" := by
  have h := skeleton_find_spec imgA 6 3 skA (by decide) (by decide) (by decide)
    (by decide) (by decide)
  exact ⟨h.1 5 (by decide) (by decide),
    h.2.1 19 (Or.inr (by decide)),
    h.2.2.1 12 (Or.inr ⟨by decide, by decide⟩),
    h.2.2.2.1 7 ⟨by decide, by decide⟩,
    h.2.2.2.2 31 (Or.inr (by decide))⟩

/-- Counterexample for C3 as stated: on the detector output for `imgA`
(a full 3-divider table) the coordinate `x = 7` lies strictly inside the
table extent (`0 < 7 < W = 30`), yet `Cols.Find` fails with `NotFound` —
the gap opened by halving the first column's right bound. -/
theorem skeleton_find_cex :
    primeSkeleton imgA = some skA ∧
    (0 : Int) < 7 ∧ (7 : Int) < skA.W ∧
    Cols.Find skA.cols 7 = .error "not found" := by
  refine ⟨by decide, by decide, by decide, by decide⟩

/-- C4 (amended): for every skeleton `prime` produces from a full-schema
image **whose first and last raw columns are at least 2px wide**, rows
satisfy `Top < Bottom` with `Bottom = next Top` (hence `Bottom ≤ next
Top`), the reconciled columns satisfy `Left < Right ≤ next Left`, and the
inclusive-range lookups map each coordinate to at most one row/column
number.  (Without the width proviso the halving/splitting reconciliation
can produce a degenerate column — see the counterexample.) -/
theorem skeleton_ordering (img : Image) (row0 col0 : Int) (sk : Skeleton)
    (h0 : findRow0 img = .ok row0) (h1 : findCol0 img row0 = .ok col0)
    (hrne : findRows img row0 ≠ [])
    (h3 : (findCols img row0 col0).length = 3)
    (hw1 : 2 ≤ ((findCols img row0 col0).getD 0 default).Right -
      ((findCols img row0 col0).getD 0 default).Left)
    (hw3 : 2 ≤ ((findCols img row0 col0).getD 2 default).Right -
      ((findCols img row0 col0).getD 2 default).Left)
    (hsk : primeSkeleton img = some sk) :
    (∀ i, i < sk.rows.length →
      (sk.rows.getD i default).Top < (sk.rows.getD i default).Bottom) ∧
    (∀ i, i + 1 < sk.rows.length →
      (sk.rows.getD i default).Bottom ≤ (sk.rows.getD (i + 1) default).Top) ∧
    (∀ i, i < sk.cols.length →
      (sk.cols.getD i default).Left < (sk.cols.getD i default).Right) ∧
    (∀ i, i + 1 < sk.cols.length →
      (sk.cols.getD i default).Right ≤ (sk.cols.getD (i + 1) default).Left) ∧
    (∀ (y : Int) (n m : Nat), sk.rows.Find y = .ok n → sk.rows.Find y = .ok m → n = m) ∧
    (∀ (x : Int) (n m : Nat), sk.cols.Find x = .ok n → sk.cols.Find x = .ok m → n = m) := by
  obtain ⟨A, B, C, hc⟩ := list_len3 _ h3
  rw [hc] at hw1 hw3
  simp only [List.getD_cons_zero, List.getD_cons_succ] at hw1 hw3
  have hr0 : (findRows img row0).head? = some ((findRows img row0).head hrne) :=
    List.head?_eq_head hrne
  have hrl : (findRows img row0).getLast? = some ((findRows img row0).getLast hrne) :=
    List.getLast?_eq_getLast _ hrne
  have hc0 : (findCols img row0 col0).head? = some A := by rw [hc]; rfl
  have hcl : (findCols img row0 col0).getLast? = some C := by rw [hc]; rfl
  have heq := primeSkeleton_eq img row0 col0 ((findRows img row0).head hrne)
    ((findRows img row0).getLast hrne) A C h0 h1 hr0 hrl hc0 hcl
  rw [hsk] at heq
  have hskval := Option.some.inj heq
  subst hskval
  dsimp only
  have hch := findRows_chain img row0
  have hhead : ((findRows img row0).head hrne).Top = row0 :=
    rowChain_head_top _ _ _ hrne hch
  have hsh := rowChain_shift row0 0 _ (-((findRows img row0).head hrne).Top) hch
  have hofs : row0 + -((findRows img row0).head hrne).Top = 0 := by omega
  rw [hofs] at hsh
  have hcch := findCols_chain img row0 col0
  rw [hc] at hcch
  obtain ⟨hAL, hAR, hAN, hBL, hBR, hBN, hCL, hCR, hCN, -⟩ := hcch
  rw [hc, reconcile3_eq A B C hAN hBN hCN,
    show A.Left + -A.Left = (0 : Int) by omega, hCL]
  have hq : (0 : Int) < A.Right + -A.Left := by omega
  have hta : Int.tdiv (A.Right + -A.Left) 2 = (A.Right + -A.Left) / 2 :=
    Int.tdiv_eq_ediv (le_of_lt hq) (by omega)
  have hs : (0 : Int) < C.Right + -A.Left - (B.Right + -A.Left) := by omega
  have hts : Int.tdiv (C.Right + -A.Left - (B.Right + -A.Left)) 2 =
      (C.Right + -A.Left - (B.Right + -A.Left)) / 2 :=
    Int.tdiv_eq_ediv (le_of_lt hs) (by omega)
  refine ⟨?_, ?_, ?_, ?_, ?_, ?_⟩
  · intro i hi
    have hmem : ((Rows.Shift (findRows img row0)
        (-((findRows img row0).head hrne).Top)).getD i default) ∈
        Rows.Shift (findRows img row0) (-((findRows img row0).head hrne).Top) := by
      rw [List.getD_eq_getElem _ default hi]
      exact List.getElem_mem hi
    exact rowChain_lt_of_mem _ _ _ _ hsh hmem
  · intro i hi
    exact le_of_eq (rowChain_adj _ _ _ i hsh hi)
  · intro i hi
    have hi4 : i < 4 := by simp only [List.length_cons, List.length_nil] at hi; omega
    clear hi
    interval_cases i <;> simp only [List.getD_cons_zero, List.getD_cons_succ] <;> omega
  · intro i hi
    have hi4 : i + 1 < 4 := by simp only [List.length_cons, List.length_nil] at hi; omega
    clear hi
    have hi3 : i < 3 := by omega
    interval_cases i <;> simp only [List.getD_cons_zero, List.getD_cons_succ] <;> omega
  · intro y n m hn hm
    rw [hn] at hm
    exact Except.ok.inj hm
  · intro x n m hn hm
    rw [hn] at hm
    exact Except.ok.inj hm

/-- Witness for C4 (amended) on `imgA` (first and last raw columns are
10px wide): the produced skeleton's first column is non-degenerate and
adjacent rows/columns are ordered. -/
theorem skeleton_ordering_witness :
    ((skA.cols.getD 0 default).Left < (skA.cols.getD 0 default).Right) ∧
    ((skA.rows.getD 0 default).Bottom ≤ (skA.rows.getD 1 default).Top) ∧
    ((skA.cols.getD 2 default).Right ≤ (skA.cols.getD 3 default).Left) := by
  have h := skeleton_ordering imgA 6 3 skA (by decide) (by decide) (by decide)
    (by decide) (by decide) (by decide) (by decide)
  exact ⟨h.2.2.1 0 (by decide), h.2.1 0 (by decide), h.2.2.2.1 2 (by decide)⟩

/-- Counterexample for C4 as stated: on `imgC` the detector's first raw
column is only 1px wide (`[3, 4]`); `prime` succeeds, but the produced
skeleton's first column is the degenerate `{Num 0, Left 0, Right 0}`,
violating `cols[i].Left < cols[i].Right`. -/
theorem skeleton_ordering_cex :
    primeSkeleton imgC = some ⟨20, 18,
      [⟨0, 0, 6⟩, ⟨1, 6, 12⟩, ⟨2, 12, 18⟩],
      [⟨0, 0, 0⟩, ⟨1, 1, 10⟩, ⟨2, 10, 15⟩, ⟨3, 15, 20⟩]⟩ ∧
    ¬ (([(⟨0, 0, 0⟩ : Col), ⟨1, 1, 10⟩, ⟨2, 10, 15⟩, ⟨3, 15, 20⟩].getD 0 default).Left <
       ([(⟨0, 0, 0⟩ : Col), ⟨1, 1, 10⟩, ⟨2, 10, 15⟩, ⟨3, 15, 20⟩].getD 0 default).Right) := by
  refine ⟨by decide, by decide⟩

theorem rowsShift_map_num : ∀ (l : Rows) (o : Int),
    (Rows.Shift l o).map Row.Num = l.map Row.Num
  | [], _ => rfl
  | r :: t, o => by
    show r.Num :: (Rows.Shift t o).map Row.Num = r.Num :: t.map Row.Num
    rw [rowsShift_map_num t o]

/-- C10 (amended): whenever `prime` succeeds **and the detector found the
full 3 raw columns**, every Row's `Num` equals its index, the final
column sequence has exactly 4 columns whose `Num`s equal their indices,
`Find` returns the positional index of a containing row/column, and
`Split` yields two adjacent columns (first's `Right` = second's `Left`)
that exactly cover the original span with consecutive numbers.  (With
fewer raw columns `prime` still succeeds but produces fewer than 4
columns — see the counterexample.) -/
theorem prime_numbering (img : Image) (row0 col0 : Int) (sk : Skeleton)
    (h0 : findRow0 img = .ok row0) (h1 : findCol0 img row0 = .ok col0)
    (hrne : findRows img row0 ≠ [])
    (h3 : (findCols img row0 col0).length = 3)
    (hsk : primeSkeleton img = some sk) :
    (sk.rows.map Row.Num = List.range sk.rows.length) ∧
    (sk.cols.map Col.Num = List.range sk.cols.length) ∧
    sk.cols.length = 4 ∧
    (∀ (y : Int) (n : Nat), sk.rows.Find y = .ok n → n < sk.rows.length ∧
      (sk.rows.getD n default).Top ≤ y ∧ y ≤ (sk.rows.getD n default).Bottom) ∧
    (∀ (x : Int) (n : Nat), sk.cols.Find x = .ok n → n < sk.cols.length ∧
      (sk.cols.getD n default).Left ≤ x ∧ x ≤ (sk.cols.getD n default).Right) ∧
    (∀ c : Col, c.Split =
      [⟨c.Num, c.Left, c.Right - Int.tdiv (c.Right - c.Left) 2⟩,
       ⟨c.Num + 1, c.Right - Int.tdiv (c.Right - c.Left) 2, c.Right⟩]) := by
  obtain ⟨A, B, C, hc⟩ := list_len3 _ h3
  have hr0 : (findRows img row0).head? = some ((findRows img row0).head hrne) :=
    List.head?_eq_head hrne
  have hrl : (findRows img row0).getLast? = some ((findRows img row0).getLast hrne) :=
    List.getLast?_eq_getLast _ hrne
  have hc0 : (findCols img row0 col0).head? = some A := by rw [hc]; rfl
  have hcl : (findCols img row0 col0).getLast? = some C := by rw [hc]; rfl
  have heq := primeSkeleton_eq img row0 col0 ((findRows img row0).head hrne)
    ((findRows img row0).getLast hrne) A C h0 h1 hr0 hrl hc0 hcl
  rw [hsk] at heq
  have hskval := Option.some.inj heq
  subst hskval
  dsimp only
  have hch := findRows_chain img row0
  have hmapr : (Rows.Shift (findRows img row0)
      (-((findRows img row0).head hrne).Top)).map Row.Num =
      List.range (Rows.Shift (findRows img row0)
        (-((findRows img row0).head hrne).Top)).length := by
    rw [rowsShift_map_num, rowChain_map_num row0 0 _ hch]
    have hlen : (Rows.Shift (findRows img row0)
        (-((findRows img row0).head hrne).Top)).length =
        (findRows img row0).length := by
      simp [Rows.Shift]
    rw [hlen, List.range_eq_range']
  have hcch := findCols_chain img row0 col0
  rw [hc] at hcch
  obtain ⟨hAL, hAR, hAN, hBL, hBR, hBN, hCL, hCR, hCN, -⟩ := hcch
  rw [hc, reconcile3_eq A B C hAN hBN hCN]
  have hmapc : ∀ q r s u v w : Int,
      ([⟨0, q, r⟩, ⟨1, s, u⟩, ⟨2, v, w - Int.tdiv (w - v) 2⟩,
        ⟨3, w - Int.tdiv (w - v) 2, w⟩] : Cols).map Col.Num =
      List.range ([⟨0, q, r⟩, ⟨1, s, u⟩, ⟨2, v, w - Int.tdiv (w - v) 2⟩,
        ⟨3, w - Int.tdiv (w - v) 2, w⟩] : Cols).length :=
    fun _ _ _ _ _ _ => rfl
  refine ⟨hmapr, by exact rfl, by exact rfl, ?_, ?_, fun c => rfl⟩
  · exact find_pos_row _ hmapr
  · exact find_pos_col _ (by exact rfl)

/-- Witness for C10 (amended) on `imgA`: `Num`s equal indices, the final
column count is 4, and `Split` halves `[20, 30]` into the adjacent
`[20, 25]`, `[25, 30]` numbered consecutively. -/
theorem prime_numbering_witness :
    skA.rows.map Row.Num = List.range skA.rows.length ∧
    skA.cols.map Col.Num = List.range skA.cols.length ∧
    skA.cols.length = 4 ∧
    (⟨5, 20, 30⟩ : Col).Split = [⟨5, 20, 25⟩, ⟨6, 25, 30⟩] := by
  have h := prime_numbering imgA 6 3 skA (by decide) (by decide) (by decide)
    (by decide) (by decide)
  exact ⟨h.1, h.2.1, h.2.2.1, (h.2.2.2.2.2 ⟨5, 20, 30⟩).trans (by decide)⟩

/-- Counterexample for C10 as stated: on `imgB` only two divider markers
exist, `prime` still succeeds, and the final column sequence has 3
columns, not 4. -/
theorem prime_numbering_cex :
    primeSkeleton imgB = some ⟨20, 18,
      [⟨0, 0, 6⟩, ⟨1, 6, 12⟩, ⟨2, 12, 18⟩],
      [⟨0, 0, 5⟩, ⟨1, 10, 15⟩, ⟨2, 15, 20⟩]⟩ ∧
    ([(⟨0, 0, 5⟩ : Col), ⟨1, 10, 15⟩, ⟨2, 15, 20⟩] : Cols).length ≠ 4 := by
  refine ⟨by decide, by decide⟩
